import Mathlib

/-!
Verification of the response-processing core of the httpx HTTP client
library: the decoder pipeline in `httpx/_decoders.py` (content decoders,
`MultiDecoder`, `TextDecoder`, `LineDecoder`) and the redirect engine
described in the specification (its implementation lives outside the
provided sources, so it is modelled from the spec).

Byte strings are modelled as `List Nat`, text as `List Char`; stateful
Python objects become explicit state records threaded through the
operations; Python exceptions become `Except` results.
-/

abbrev Bytes := List Nat

namespace Httpx

/-! ### LineDecoder (`httpx/_decoders.py`, class `LineDecoder`)

`LineDecoder.decode` scans the incoming text for the next terminator
(`\n`, `\r\n`, or a bare `\r` that is not the final character of the
chunk), emitting `buffer + prefix` normalised to a trailing `\n` and
resetting the buffer.  The scan of the Python `while text:` loop, with
the accumulated-but-unterminated prefix folded into the first argument,
is `decodeLoop`: the emitted line `buffer + text[: idx + 1]` (resp.
`buffer + text[:idx] + "\n"`) is `buf ++ [newline]` once the scanned
prefix has been folded into `buf`, and the `next_char is None` branch
(`buffer += text`) leaves the whole remainder, a trailing `\r`
included, in the buffer. -/

def decodeLoop (buf : List Char) : List Char → List (List Char) × List Char
  | [] => ([], buf)
  | c :: rest =>
    if c = '\n' then
      let r := decodeLoop [] rest
      ((buf ++ ['\n']) :: r.1, r.2)
    else if c = '\r' then
      match rest with
      | [] => ([], buf ++ ['\r'])
      | c2 :: rest2 =>
        if c2 = '\n' then
          let r := decodeLoop [] rest2
          ((buf ++ ['\n']) :: r.1, r.2)
        else
          let r := decodeLoop [] (c2 :: rest2)
          ((buf ++ ['\n']) :: r.1, r.2)
    else decodeLoop (buf ++ [c]) rest

/-- State of `LineDecoder`: the pending partial-line buffer. -/
structure LineDecoder where
  buffer : List Char
deriving DecidableEq, Repr

/-- `LineDecoder.__init__`. -/
def LineDecoder.init : LineDecoder := ⟨[]⟩

/-- `LineDecoder.decode`: the two special cases for a buffer ending in a
bare `\r` from the previous call (split `\r\n` across chunks, or a
completed `\r`-terminated line), followed by the scanning loop. -/
def LineDecoder.decode (st : LineDecoder) (text : List Char) :
    List (List Char) × LineDecoder :=
  match text with
  | [] => ([], st)
  | t :: ts =>
    if st.buffer.getLast? = some '\r' then
      if t = '\n' then
        let r := decodeLoop [] ts
        ((st.buffer.dropLast ++ ['\n']) :: r.1, ⟨r.2⟩)
      else
        let r := decodeLoop [] (t :: ts)
        ((st.buffer.dropLast ++ ['\n']) :: r.1, ⟨r.2⟩)
    else
      let r := decodeLoop st.buffer (t :: ts)
      (r.1, ⟨r.2⟩)

/-- `LineDecoder.flush`. -/
def LineDecoder.flush (st : LineDecoder) : List (List Char) × LineDecoder :=
  if st.buffer.getLast? = some '\r' then
    ([st.buffer.dropLast ++ ['\n']], ⟨[]⟩)
  else if st.buffer ≠ [] then
    ([st.buffer], ⟨[]⟩)
  else
    ([], ⟨[]⟩)

/-- Feed a sequence of chunks to a `LineDecoder`, concatenating the
returned line lists. -/
def LineDecoder.decodeMany (st : LineDecoder) :
    List (List Char) → List (List Char) × LineDecoder
  | [] => ([], st)
  | chunk :: chunks =>
    let r := st.decode chunk
    let r2 := r.2.decodeMany chunks
    (r.1 ++ r2.1, r2.2)

/-- All lines produced by feeding `chunks` one at a time and then flushing. -/
def LineDecoder.linesOfChunks (chunks : List (List Char)) : List (List Char) :=
  let r := LineDecoder.init.decodeMany chunks
  r.1 ++ r.2.flush.1

/-- All lines produced by feeding the whole text in a single `decode`
call and then flushing. -/
def LineDecoder.linesOfText (text : List Char) : List (List Char) :=
  let r := LineDecoder.init.decode text
  r.1 ++ r.2.flush.1

/-! ### DeflateDecoder (`httpx/_decoders.py`, class `DeflateDecoder`)

The decoder wraps the external `zlib` module, which we model as an
abstract interface: `D` is the type of decompressor objects,
`decompressobj` is a fresh zlib-framed decompressor,
`decompressobjRaw` a fresh raw-deflate one (`zlib.decompressobj(-zlib.MAX_WBITS)`),
and `decompress d data` either returns output bytes together with the
mutated object or raises a `zlib.error` (an `Except.error`). -/

structure ZlibModule (D : Type) where
  decompressobj : D
  decompressobjRaw : D
  decompress : D → Bytes → Except String (Bytes × D)

/-- State of `DeflateDecoder`: the `first_attempt` flag and the current
decompressor object. -/
structure DeflateDecoder (D : Type) where
  first_attempt : Bool
  decompressor : D

/-- `DeflateDecoder.__init__`. -/
def DeflateDecoder.init {D : Type} (z : ZlibModule D) : DeflateDecoder D :=
  ⟨true, z.decompressobj⟩

/-- `DeflateDecoder.decode`: record `was_first_attempt`, clear the flag,
attempt decompression; on `zlib.error`, if this was the first attempt,
re-initialize with a raw-deflate decompressor and recursively retry the
same chunk (the retry runs with the flag already cleared, so a second
failure raises). -/
def DeflateDecoder.decode {D : Type} (z : ZlibModule D) (st : DeflateDecoder D)
    (data : Bytes) : Except String (Bytes × DeflateDecoder D) :=
  match z.decompress st.decompressor data with
  | .ok r => .ok (r.1, ⟨false, r.2⟩)
  | .error exc =>
    if h : st.first_attempt then
      DeflateDecoder.decode z ⟨false, z.decompressobjRaw⟩ data
    else
      .error exc
termination_by st.first_attempt.toNat
decreasing_by simp [h]

/-- Concrete zlib model used to witness the deflate theorems: objects are
booleans (`true` = raw-deflate object); the framed object always raises,
the raw object decompresses to its input. -/
def zlibFramedFails : ZlibModule Bool :=
  { decompressobj := false
    decompressobjRaw := true
    decompress := fun d data =>
      if d then .ok (data, d) else .error "invalid zlib data" }

/-- Concrete zlib model used to witness C10: a single object type on
which decompressing an empty chunk succeeds and any non-empty chunk
raises. -/
def zlibFailsOnData : ZlibModule Unit :=
  { decompressobj := ()
    decompressobjRaw := ()
    decompress := fun _ data =>
      if data = [] then .ok ([], ()) else .error "corrupt stream" }

/-! ### MultiDecoder (`httpx/_decoders.py`, class `MultiDecoder`)

A child content decoder is modelled as a state of some type `S`
together with its `decode` and `flush` methods acting on that state
(the method returns output bytes and mutates the object, i.e. returns
the new state). -/

structure ContentDecoder (S : Type) where
  st : S
  decodeFn : S → Bytes → Bytes × S
  flushFn : S → Bytes × S

/-- `child.decode(data)`: output bytes, object mutated in place. -/
def ContentDecoder.decode {S : Type} (c : ContentDecoder S) (data : Bytes) :
    Bytes × ContentDecoder S :=
  let r := c.decodeFn c.st data
  (r.1, { c with st := r.2 })

/-- `child.flush()`. -/
def ContentDecoder.flush {S : Type} (c : ContentDecoder S) :
    Bytes × ContentDecoder S :=
  let r := c.flushFn c.st
  (r.1, { c with st := r.2 })

/-- `MultiDecoder`: stores its children (already reversed at
construction time). -/
structure MultiDecoder (S : Type) where
  children : List (ContentDecoder S)

/-- `MultiDecoder.__init__`: `self.children = list(reversed(children))`,
`children` given in the order the encodings were applied. -/
def MultiDecoder.ofChildren {S : Type} (children : List (ContentDecoder S)) :
    MultiDecoder S :=
  ⟨children.reverse⟩

/-- The loop of `MultiDecoder.decode`:
`for child in children: data = child.decode(data)`. -/
def decodeThread {S : Type} : List (ContentDecoder S) → Bytes →
    Bytes × List (ContentDecoder S)
  | [], data => (data, [])
  | c :: cs, data =>
    let r := c.decode data
    let r2 := decodeThread cs r.1
    (r2.1, r.2 :: r2.2)

/-- `MultiDecoder.decode`. -/
def MultiDecoder.decode {S : Type} (m : MultiDecoder S) (data : Bytes) :
    Bytes × MultiDecoder S :=
  let r := decodeThread m.children data
  (r.1, ⟨r.2⟩)

/-- The loop of `MultiDecoder.flush`:
`for child in children: data = child.decode(data) + child.flush()`,
starting from `data = b""`. -/
def flushThread {S : Type} : List (ContentDecoder S) → Bytes →
    Bytes × List (ContentDecoder S)
  | [], data => (data, [])
  | c :: cs, data =>
    let r1 := c.decode data
    let r2 := r1.2.flush
    let r3 := flushThread cs (r1.1 ++ r2.1)
    (r3.1, r2.2 :: r3.2)

/-- `MultiDecoder.flush`. -/
def MultiDecoder.flush {S : Type} (m : MultiDecoder S) :
    Bytes × MultiDecoder S :=
  let r := flushThread m.children []
  (r.1, ⟨r.2⟩)

/-! ### TextDecoder (`httpx/_decoders.py`, class `TextDecoder`)

The class wraps the external `codecs` incremental decoders and the
`chardet` universal detector, modelled as an abstract interface.  `D`
is the type of committed incremental decoder objects:
`getincrementaldecoder enc` is a fresh decoder for encoding `enc`, and
`decDecode d data final` is `d.decode(data, final)`, returning text and
the mutated decoder, or `none` for a `UnicodeDecodeError`.  Since
`detector.feed` receives exactly the bytes appended to the buffer, the
detector state is identified with the buffered bytes: `detectorClose
buf` is the result of closing the detector after feeding `buf` (`none`
when no encoding could be determined).  `bytesDecode enc data` is the
one-shot `bytes(data).decode(enc)`. -/

structure CodecsModule (D : Type) where
  getincrementaldecoder : String → D
  decDecode : D → Bytes → Bool → Option (String × D)
  detectorClose : Bytes → Option String
  bytesDecode : String → Bytes → Option String

/-- State of `TextDecoder`: an optional committed decoder and an
optional accumulating byte buffer. -/
structure TextDecoder (D : Type) where
  decoder : Option D
  buffer : Option Bytes

/-- `TextDecoder.__init__`: the committed decoder is constructed
immediately iff an encoding was declared; the buffer exists only when
no decoder does. -/
def TextDecoder.init {D : Type} (z : CodecsModule D) (encoding : Option String) :
    TextDecoder D :=
  let dec := encoding.map z.getincrementaldecoder
  ⟨dec, if dec.isSome then none else some []⟩

/-- `TextDecoder.decode`. -/
def TextDecoder.decode {D : Type} (z : CodecsModule D) (st : TextDecoder D)
    (data : Bytes) : Except String (String × TextDecoder D) :=
  match st.decoder with
  | some d =>
    match z.decDecode d data false with
    | some r => .ok (r.1, { st with decoder := some r.2 })
    | none => .error "unicode decode error"
  | none =>
    match st.buffer with
    | none => .error "assertion failed: buffer is None"
    | some buf =>
      let buf2 := buf ++ data
      if buf2.length ≥ 4096 then
        match z.detectorClose buf2 with
        | none => .error "Unable to determine encoding of content"
        | some enc =>
          match z.decDecode (z.getincrementaldecoder enc) buf2 false with
          | some r => .ok (r.1, ⟨some r.2, none⟩)
          | none => .error "unicode decode error"
      else
        .ok ("", ⟨none, some buf2⟩)

/-- `TextDecoder.flush`. -/
def TextDecoder.flush {D : Type} (z : CodecsModule D) (st : TextDecoder D) :
    Except String (String × TextDecoder D) :=
  match st.decoder with
  | none =>
    match st.buffer with
    | none => .error "assertion failed: buffer is None"
    | some buf =>
      if buf.length = 0 then
        .ok ("", st)
      else
        match z.detectorClose buf with
        | none => .error "Unable to determine encoding of content"
        | some enc =>
          match z.bytesDecode enc buf with
          | some t => .ok (t, st)
          | none => .error "unicode decode error"
  | some d =>
    match z.decDecode d [] true with
    | some r => .ok (r.1, { st with decoder := some r.2 })
    | none => .error "unicode decode error"

/-- Concrete codecs model used to witness the TextDecoder theorems:
decoder objects are counters, decoding always succeeds with a fixed
text, detection always succeeds with a fixed encoding. -/
def codecsDemo : CodecsModule Nat :=
  { getincrementaldecoder := fun _ => 0
    decDecode := fun d _ _ => some ("T", d + 1)
    detectorClose := fun _ => some "ascii"
    bytesDecode := fun _ _ => some "B" }

/-- Exactly one of the committed decoder and the accumulating byte
buffer is non-null. -/
def TextDecoder.exclusiveState {D : Type} (st : TextDecoder D) : Prop :=
  (st.decoder.isSome = true ∧ st.buffer = none)
  ∨ (st.decoder = none ∧ st.buffer.isSome = true)

/-- `TextDecoder.decode` with the imperative post-state made explicit:
the object outlives a raising call, so an error result is paired with
the fields as the method leaves them, preserving the source's mutation
order.  In particular `self.buffer += data` precedes the threshold test,
and on the threshold branch `self.decoder` is assigned *before* the
possibly-raising `self.decoder.decode(bytes(self.buffer), False)` call
while `self.buffer = None` runs only after it — so a
`UnicodeDecodeError` there leaves the committed decoder assigned and
the buffer still present.  On results, this agrees with
`TextDecoder.decode` (`TextDecoder.decode_eq_decodeST`). -/
def TextDecoder.decodeST {D : Type} (z : CodecsModule D) (st : TextDecoder D)
    (data : Bytes) : Except String String × TextDecoder D :=
  match st.decoder with
  | some d =>
    match z.decDecode d data false with
    | some r => (.ok r.1, { st with decoder := some r.2 })
    | none => (.error "unicode decode error", st)
  | none =>
    match st.buffer with
    | none => (.error "assertion failed: buffer is None", st)
    | some buf =>
      let buf2 := buf ++ data
      if buf2.length ≥ 4096 then
        match z.detectorClose buf2 with
        | none => (.error "Unable to determine encoding of content",
            ⟨none, some buf2⟩)
        | some enc =>
          match z.decDecode (z.getincrementaldecoder enc) buf2 false with
          | some r => (.ok r.1, ⟨some r.2, none⟩)
          | none => (.error "unicode decode error",
              ⟨some (z.getincrementaldecoder enc), some buf2⟩)
      else
        (.ok "", ⟨none, some buf2⟩)

/-- `TextDecoder.flush` with the imperative post-state made explicit.
No field is assigned before any raising call here, so every error path
leaves the fields unchanged.  On results, this agrees with
`TextDecoder.flush` (`TextDecoder.flush_eq_flushST`). -/
def TextDecoder.flushST {D : Type} (z : CodecsModule D) (st : TextDecoder D) :
    Except String String × TextDecoder D :=
  match st.decoder with
  | none =>
    match st.buffer with
    | none => (.error "assertion failed: buffer is None", st)
    | some buf =>
      if buf.length = 0 then
        (.ok "", st)
      else
        match z.detectorClose buf with
        | none => (.error "Unable to determine encoding of content", st)
        | some enc =>
          match z.bytesDecode enc buf with
          | some t => (.ok t, st)
          | none => (.error "unicode decode error", st)
  | some d =>
    match z.decDecode d [] true with
    | some r => (.ok r.1, { st with decoder := some r.2 })
    | none => (.error "unicode decode error", st)

/-- Concrete codecs model on which the committed decoder raises: the
detector picks an encoding, but decoding any bytes with the committed
decoder for it fails (as `chardet`'s heuristic guess can be an encoding
for which the buffered bytes are invalid). -/
def codecsRaisingDemo : CodecsModule Nat :=
  { getincrementaldecoder := fun _ => 7
    decDecode := fun _ _ _ => none
    detectorClose := fun _ => some "shift-jis"
    bytesDecode := fun _ _ => none }

/-! ### RedirectEngine (spec §4.5)

The redirect engine's implementation is not among the provided source
files (only its test suite is), so the parts that the claims depend on
are modelled from the specification. -/

/-- A URL, as far as the redirect rules need it. -/
structure URL where
  scheme : String
  host : String
  port : Nat
  path : String
deriving DecidableEq

/-- Modelled from the spec: the origin-equality test gating credential
propagation — "Cross-origin: differing in scheme, host, or port between
two URLs" (glossary; §4.5 step 5).  The `RedirectEngine` implementation
is missing from the sources. -/
def sameOrigin (a b : URL) : Bool :=
  a.scheme = b.scheme && a.host = b.host && a.port = b.port

/-- Header mapping: lowercase header names paired with values. -/
abbrev Headers := List (String × String)

/-- Modelled from the spec: header adjustment on a redirect (§4.5 step
5) — "when the redirect target's origin (scheme + host + port) differs
from the original request's origin, strip credential-bearing headers
(`Authorization`, `Cookie`)"; same-origin redirects keep the headers.
The `RedirectEngine` implementation is missing from the sources. -/
def redirectHeaders (headers : Headers) (origin target : URL) : Headers :=
  if sameOrigin origin target then headers
  else headers.filter (fun kv => !(kv.1 == "authorization" || kv.1 == "cookie"))

/-- Modelled from the spec: the redirect method rewrite table (§4.5 step
4) — 301/302 turn POST into GET and leave HEAD and other methods
unchanged; 303 forces every method except HEAD to GET; 307/308 leave
the method unchanged.  The `RedirectEngine` implementation is missing
from the sources. -/
def redirectMethod (status : Nat) (method : String) : String :=
  if status = 303 then
    if method = "HEAD" then "HEAD" else "GET"
  else if status = 301 || status = 302 then
    if method = "POST" then "GET" else method
  else
    method

/-- Modelled from the spec: the redirect body rule (§4.5 step 4) — the
body is always dropped on 303, dropped on 301/302 iff the method
changed to GET, and preserved on 307/308.  The `RedirectEngine`
implementation is missing from the sources. -/
def redirectBody (status : Nat) (method : String) (body : Option Bytes) :
    Option Bytes :=
  if status = 303 then none
  else if (status = 301 || status = 302)
      && (redirectMethod status method != method) then none
  else body

/-- Redirect-chain error kind. -/
inductive RedirectError where
  | tooManyRedirects
deriving DecidableEq

/-- Modelled from the spec: the loop/limit control of the redirect
engine (§4.5 step 7) — each successful classification-and-rewrite step
increments a redirect counter, and exceeding the configured maximum
aborts with `TooManyRedirects`; no cycle detection by URL equality is
performed.  The chain is represented by the list of redirect target
URLs the transport answers with; the result is the number of redirects
followed.  The `RedirectEngine` implementation is missing from the
sources. -/
def followRedirects (maxRedirects : Nat) :
    List URL → Nat → Except RedirectError Nat
  | [], count => .ok count
  | _ :: rest, count =>
    if count + 1 > maxRedirects then .error .tooManyRedirects
    else followRedirects maxRedirects rest (count + 1)

/-! ### Theorems -/

example : LineDecoder.linesOfChunks [['a','b','\n','c','d','\r'],['\n','e','\r'],['f']]
    = [['a','b','\n'],['c','d','\n'],['e','\n'],['f']] := by decide

example : LineDecoder.linesOfText ['a','b','\n','c','d','\r','\n','e','\r','f']
    = [['a','b','\n'],['c','d','\n'],['e','\n'],['f']] := by decide

theorem decodeLoop_nil (buf : List Char) : decodeLoop buf [] = ([], buf) := rfl

theorem decodeLoop_newline (buf rest : List Char) :
    decodeLoop buf ('\n' :: rest)
      = ((buf ++ ['\n']) :: (decodeLoop [] rest).1, (decodeLoop [] rest).2) := by
  rw [decodeLoop.eq_def]
  simp

theorem decodeLoop_cr_last (buf : List Char) :
    decodeLoop buf ['\r'] = ([], buf ++ ['\r']) := by
  simp [decodeLoop]

theorem decodeLoop_cr_nl (buf rest : List Char) :
    decodeLoop buf ('\r' :: '\n' :: rest)
      = ((buf ++ ['\n']) :: (decodeLoop [] rest).1, (decodeLoop [] rest).2) := by
  simp [decodeLoop]

theorem decodeLoop_cr_other (buf : List Char) (c2 : Char) (rest : List Char)
    (h : c2 ≠ '\n') :
    decodeLoop buf ('\r' :: c2 :: rest)
      = ((buf ++ ['\n']) :: (decodeLoop [] (c2 :: rest)).1,
         (decodeLoop [] (c2 :: rest)).2) := by
  simp [decodeLoop, h]

theorem decodeLoop_other (buf : List Char) (c : Char) (rest : List Char)
    (h1 : c ≠ '\n') (h2 : c ≠ '\r') :
    decodeLoop buf (c :: rest) = decodeLoop (buf ++ [c]) rest := by
  rw [decodeLoop.eq_def]
  simp [h1, h2]

theorem LineDecoder.decode_nil (st : LineDecoder) : st.decode [] = ([], st) := rfl

theorem LineDecoder.decode_plain (st : LineDecoder)
    (h : st.buffer.getLast? ≠ some '\r') (text : List Char) :
    st.decode text = ((decodeLoop st.buffer text).1, ⟨(decodeLoop st.buffer text).2⟩) := by
  cases st with
  | mk buf =>
    cases text with
    | nil => simp [LineDecoder.decode, decodeLoop_nil]
    | cons t ts => simp [LineDecoder.decode, h]

theorem LineDecoder.decode_cr_nl (st : LineDecoder)
    (h : st.buffer.getLast? = some '\r') (ts : List Char) :
    st.decode ('\n' :: ts)
      = ((st.buffer.dropLast ++ ['\n']) :: (decodeLoop [] ts).1,
         ⟨(decodeLoop [] ts).2⟩) := by
  simp [LineDecoder.decode, h]

theorem LineDecoder.decode_cr_other (st : LineDecoder)
    (h : st.buffer.getLast? = some '\r') (t : Char) (ts : List Char)
    (ht : t ≠ '\n') :
    st.decode (t :: ts)
      = ((st.buffer.dropLast ++ ['\n']) :: (decodeLoop [] (t :: ts)).1,
         ⟨(decodeLoop [] (t :: ts)).2⟩) := by
  simp [LineDecoder.decode, h, ht]

/-- Compositionality of the scanning loop: processing `t1 ++ t2` in one
pass agrees with processing `t1` and then handing the resulting buffer
to a fresh `decode` call on `t2`.  The hypothesis records the invariant
that the loop is never entered with a buffer ending in `\r` (the
`decode` entry code has already resolved such a buffer). -/
theorem decodeLoop_append (buf t1 t2 : List Char) :
    buf.getLast? ≠ some '\r' →
    decodeLoop buf (t1 ++ t2) =
      ((decodeLoop buf t1).1 ++ (LineDecoder.decode ⟨(decodeLoop buf t1).2⟩ t2).1,
       (LineDecoder.decode ⟨(decodeLoop buf t1).2⟩ t2).2.buffer) := by
  induction buf, t1 using decodeLoop.induct with
  | case1 buf =>
    intro hb
    rw [List.nil_append, decodeLoop_nil,
      LineDecoder.decode_plain ⟨buf⟩ hb t2]
    simp
  | case2 buf rest ih =>
    intro hb
    have ih' := ih (by simp)
    simp only [List.cons_append, decodeLoop_newline, ih']
  | case3 buf h =>
    intro hb
    cases t2 with
    | nil => simp [decodeLoop_cr_last, LineDecoder.decode_nil]
    | cons t ts =>
      by_cases ht : t = '\n'
      · subst ht
        rw [show ('\r' :: []) ++ '\n' :: ts = '\r' :: '\n' :: ts from rfl,
          decodeLoop_cr_nl, decodeLoop_cr_last,
          LineDecoder.decode_cr_nl ⟨buf ++ ['\r']⟩ (by simp) ts]
        simp
      · rw [show ('\r' :: []) ++ t :: ts = '\r' :: t :: ts from rfl,
          decodeLoop_cr_other buf t ts ht, decodeLoop_cr_last,
          LineDecoder.decode_cr_other ⟨buf ++ ['\r']⟩ (by simp) t ts ht]
        simp
  | case4 buf rest h ih =>
    intro hb
    have ih' := ih (by simp)
    simp only [List.cons_append, decodeLoop_cr_nl, ih']
  | case5 buf c2 rest h2 h ih =>
    intro hb
    have ih' := ih (by simp)
    simp only [List.cons_append] at ih' ⊢
    rw [decodeLoop_cr_other buf c2 (rest ++ t2) h2,
      decodeLoop_cr_other buf c2 rest h2, ih']
    simp
  | case6 buf c rest h1 h2 ih =>
    intro hb
    have ih' := ih (by simp [h2])
    simp only [List.cons_append, decodeLoop_other _ _ _ h1 h2, ih']

/-- `LineDecoder.decode` is compositional: decoding `t1 ++ t2` in one
call produces the same lines and final state as decoding `t1`, then
decoding `t2` from the resulting state. -/
theorem LineDecoder.decode_append (st : LineDecoder) (t1 t2 : List Char) :
    st.decode (t1 ++ t2)
      = ((st.decode t1).1 ++ ((st.decode t1).2.decode t2).1,
         ((st.decode t1).2.decode t2).2) := by
  cases t1 with
  | nil => simp [LineDecoder.decode_nil]
  | cons t ts =>
    by_cases hcr : st.buffer.getLast? = some '\r'
    · by_cases ht : t = '\n'
      · subst ht
        rw [List.cons_append, LineDecoder.decode_cr_nl st hcr (ts ++ t2),
          LineDecoder.decode_cr_nl st hcr ts,
          decodeLoop_append [] ts t2 (by simp)]
        simp
      · rw [List.cons_append, LineDecoder.decode_cr_other st hcr t (ts ++ t2) ht,
          LineDecoder.decode_cr_other st hcr t ts ht]
        have h := decodeLoop_append [] (t :: ts) t2 (by simp)
        rw [List.cons_append] at h
        rw [h]
        simp
    · rw [List.cons_append, LineDecoder.decode_plain st hcr (t :: (ts ++ t2)),
        LineDecoder.decode_plain st hcr (t :: ts)]
      have h := decodeLoop_append st.buffer (t :: ts) t2 hcr
      rw [List.cons_append] at h
      rw [h]

/-- Feeding chunks one at a time equals feeding their concatenation in a
single call, both for the emitted lines and for the final state. -/
theorem LineDecoder.decodeMany_eq_decode_flatten (chunks : List (List Char))
    (st : LineDecoder) :
    st.decodeMany chunks = st.decode chunks.flatten := by
  induction chunks generalizing st with
  | nil => simp [LineDecoder.decodeMany, LineDecoder.decode_nil]
  | cons c cs ih =>
    rw [List.flatten_cons, LineDecoder.decode_append st c cs.flatten]
    simp [LineDecoder.decodeMany, ih]

/-- C4: for every text and every partition of it into chunks, feeding
the chunks to `LineDecoder.decode` one at a time and concatenating the
returned line lists, followed by `flush`, yields exactly the same list
of lines as feeding the whole text in a single `decode` call followed
by `flush` — universal newlines (`\n`, `\r\n`, bare `\r`) included,
since the argument ranges over all character lists. -/
theorem lineDecoder_partition_invariance (chunks : List (List Char)) :
    LineDecoder.linesOfChunks chunks = LineDecoder.linesOfText chunks.flatten := by
  rw [LineDecoder.linesOfChunks, LineDecoder.linesOfText,
    LineDecoder.decodeMany_eq_decode_flatten]

/-- C5: if zlib-framed decompression fails on the very first `decode`
call, the decompressor is re-initialized for raw deflate and the same
chunk is retried exactly once — the result is exactly that of a single
raw-deflate attempt, a second failure surfacing as the error; and if the
first-attempt flag is already `false` when decompression fails, the
failure is raised directly with no retry. -/
theorem deflate_fallback_exactly_once {D : Type} (z : ZlibModule D) (d : D)
    (data : Bytes) (exc : String)
    (hfail : z.decompress d data = .error exc) :
    (DeflateDecoder.decode z ⟨true, d⟩ data
        = match z.decompress z.decompressobjRaw data with
          | .ok r => .ok (r.1, ⟨false, r.2⟩)
          | .error exc2 => .error exc2)
    ∧ DeflateDecoder.decode z ⟨false, d⟩ data = .error exc := by
  constructor
  · rw [DeflateDecoder.decode.eq_def]
    simp only [hfail]
    rw [dif_pos trivial, DeflateDecoder.decode.eq_def]
    cases hr : z.decompress z.decompressobjRaw data with
    | ok r => rfl
    | error exc2 => rfl
  · rw [DeflateDecoder.decode.eq_def]
    simp only [hfail]
    rw [dif_neg (by simp)]

theorem deflate_fallback_exactly_once_witness :
    DeflateDecoder.decode zlibFramedFails ⟨true, false⟩ [3, 7]
        = .ok ([3, 7], ⟨false, true⟩)
    ∧ DeflateDecoder.decode zlibFramedFails ⟨false, false⟩ [3, 7]
        = .error "invalid zlib data" := by
  have h := deflate_fallback_exactly_once zlibFramedFails false [3, 7]
    "invalid zlib data" rfl
  exact ⟨by rw [h.1]; rfl, h.2⟩

/-- C10: the one-shot raw-deflate fallback is consumed by the first
`decode` call regardless of its content or outcome.  If the first call
carries an empty chunk and trivially succeeds, the flag is cleared, and
a zlib error on any later chunk raises immediately with no raw-deflate
retry. -/
theorem deflate_fallback_consumed_by_first_call {D : Type} (z : ZlibModule D)
    (d d' : D) (out data2 : Bytes) (exc : String)
    (hok : z.decompress d [] = .ok (out, d'))
    (hfail : z.decompress d' data2 = .error exc) :
    DeflateDecoder.decode z ⟨true, d⟩ [] = .ok (out, ⟨false, d'⟩)
    ∧ DeflateDecoder.decode z ⟨false, d'⟩ data2 = .error exc := by
  constructor
  · rw [DeflateDecoder.decode.eq_def]
    simp only [hok]
  · rw [DeflateDecoder.decode.eq_def]
    simp only [hfail]
    rw [dif_neg (by simp)]

theorem deflate_fallback_consumed_by_first_call_witness :
    DeflateDecoder.decode zlibFailsOnData ⟨true, ()⟩ [] = .ok ([], ⟨false, ()⟩)
    ∧ DeflateDecoder.decode zlibFailsOnData ⟨false, ()⟩ [9]
        = .error "corrupt stream" := by
  exact deflate_fallback_consumed_by_first_call zlibFailsOnData () () [] [9]
    "corrupt stream" rfl rfl

/-- Decomposition of the decode loop over a split of the child list: the
bytes produced by the first segment are exactly the bytes fed to the
second segment. -/
theorem decodeThread_append {S : Type} (xs ys : List (ContentDecoder S))
    (data : Bytes) :
    decodeThread (xs ++ ys) data
      = ((decodeThread ys (decodeThread xs data).1).1,
         (decodeThread xs data).2 ++ (decodeThread ys (decodeThread xs data).1).2) := by
  induction xs generalizing data with
  | nil => simp [decodeThread]
  | cons c cs ih => simp [decodeThread, ih]

/-- Decomposition of the flush loop over a split of the child list: the
bytes accumulated by the first segment — including bytes its children
released only from their `flush` methods — are fed through every child
of the second segment. -/
theorem flushThread_append {S : Type} (xs ys : List (ContentDecoder S))
    (data : Bytes) :
    flushThread (xs ++ ys) data
      = ((flushThread ys (flushThread xs data).1).1,
         (flushThread xs data).2 ++ (flushThread ys (flushThread xs data).1).2) := by
  induction xs generalizing data with
  | nil => simp [flushThread]
  | cons c cs ih => simp [flushThread, ih]

/-- C6: the composite decoder stores the reversed child list once at
construction; `decode` threads the chunk through the children in that
reversed order — in particular the child applied last during encoding
is the first to process the chunk, its output becoming the input of the
composite of the remaining children; `flush` processes the children in
the same stored order, each child contributing its `decode(data)`
output plus its `flush()` output to the data handed to the subsequent
children, so bytes released only at flush time by an upstream child
still pass through all downstream stages. -/
theorem multiDecoder_reversed_threading {S : Type}
    (children firstApplied : List (ContentDecoder S)) (lastApplied : ContentDecoder S)
    (c : ContentDecoder S) (cs xs ys : List (ContentDecoder S)) (data : Bytes) :
    (MultiDecoder.ofChildren children).children = children.reverse
    ∧ ((MultiDecoder.ofChildren (firstApplied ++ [lastApplied])).decode data).1
        = ((MultiDecoder.ofChildren firstApplied).decode
            (lastApplied.decode data).1).1
    ∧ (decodeThread (c :: cs) data).1
        = (decodeThread cs (c.decode data).1).1
    ∧ (flushThread (c :: cs) data).1
        = (flushThread cs ((c.decode data).1 ++ ((c.decode data).2.flush).1)).1
    ∧ ((MultiDecoder.ofChildren (firstApplied ++ [lastApplied])).flush).1
        = (flushThread (MultiDecoder.ofChildren firstApplied).children
            ((lastApplied.decode []).1 ++ ((lastApplied.decode []).2.flush).1)).1
    ∧ (flushThread (xs ++ ys) data).1
        = (flushThread ys (flushThread xs data).1).1 := by
  refine ⟨rfl, ?_, rfl, rfl, ?_, ?_⟩
  · rw [MultiDecoder.ofChildren, MultiDecoder.ofChildren]
    simp only [MultiDecoder.decode, List.reverse_append, List.reverse_cons,
      List.reverse_nil, List.nil_append, List.singleton_append]
    rw [decodeThread]
  · rw [MultiDecoder.ofChildren, MultiDecoder.ofChildren]
    simp only [MultiDecoder.flush, List.reverse_append, List.reverse_cons,
      List.reverse_nil, List.nil_append, List.singleton_append]
    rw [flushThread]
  · rw [flushThread_append]

/-- C7: with no declared encoding, a `decode` call whose cumulative
buffered input stays below 4096 bytes returns the empty string and
accumulates the bytes; the first call at which the buffer reaches 4096
bytes finalizes detection, instantiates the committed decoder, decodes
the whole buffered prefix in one pass, returns it and discards the
buffer; and once a decoder is committed every call feeds its bytes
directly to it. -/
theorem textDecoder_detection_threshold {D : Type} (z : CodecsModule D)
    (buf data : Bytes) (enc t : String) (d d' : D) (bopt : Option Bytes) :
    ((buf ++ data).length < 4096 →
      TextDecoder.decode z ⟨none, some buf⟩ data
        = .ok ("", ⟨none, some (buf ++ data)⟩))
    ∧ ((buf ++ data).length ≥ 4096 →
       z.detectorClose (buf ++ data) = some enc →
       z.decDecode (z.getincrementaldecoder enc) (buf ++ data) false
           = some (t, d') →
       TextDecoder.decode z ⟨none, some buf⟩ data = .ok (t, ⟨some d', none⟩))
    ∧ (TextDecoder.decode z ⟨some d, bopt⟩ data
        = match z.decDecode d data false with
          | some r => .ok (r.1, ⟨some r.2, bopt⟩)
          | none => .error "unicode decode error") := by
  refine ⟨?_, ?_, ?_⟩
  · intro hlen
    simp only [TextDecoder.decode]
    rw [if_neg]
    omega
  · intro hlen henc hdec
    simp only [TextDecoder.decode]
    rw [if_pos hlen]
    simp only [henc, hdec]
  · rw [TextDecoder.decode]

theorem textDecoder_detection_threshold_witness :
    ((([] : Bytes) ++ [1, 2]).length < 4096
      ∧ TextDecoder.decode codecsDemo ⟨none, some []⟩ [1, 2]
          = .ok ("", ⟨none, some [1, 2]⟩))
    ∧ ((List.replicate 4095 0 ++ [0]).length ≥ 4096
      ∧ TextDecoder.decode codecsDemo ⟨none, some (List.replicate 4095 0)⟩ [0]
          = .ok ("T", ⟨some 1, none⟩))
    ∧ TextDecoder.decode codecsDemo ⟨some 5, none⟩ [9]
        = .ok ("T", ⟨some 6, none⟩) := by
  have hlen : (List.replicate 4095 (0 : Nat) ++ [0]).length ≥ 4096 := by
    rw [List.length_append, List.length_replicate, List.length_singleton]
  refine ⟨⟨by decide, ?_⟩, ⟨hlen, ?_⟩, ?_⟩
  · exact (textDecoder_detection_threshold codecsDemo [] [1, 2] "ascii" "T" 0 0
      none).1 (by decide)
  · exact (textDecoder_detection_threshold codecsDemo (List.replicate 4095 0)
      [0] "ascii" "T" 0 1 none).2.1 hlen rfl rfl
  · have h := (textDecoder_detection_threshold codecsDemo [] [9] "ascii" "T" 5 6
      none).2.2
    rw [h]
    rfl

/-- C8: `TextDecoder.flush` with no declared encoding: an empty buffer
(no bytes ever received) returns the empty string without error; a
non-empty buffer — total input below the 4096-byte threshold, encoding
still undetermined — finalizes detection and returns the whole buffer
decoded with the detected best-guess encoding; and with a committed
decoder, `flush` performs one final end-of-stream decode call. -/
theorem textDecoder_flush_cases {D : Type} (z : CodecsModule D) (buf : Bytes)
    (enc t : String) (d : D) (bopt : Option Bytes) :
    TextDecoder.flush z ⟨none, some []⟩ = .ok ("", ⟨none, some []⟩)
    ∧ (buf ≠ [] → z.detectorClose buf = some enc →
       z.bytesDecode enc buf = some t →
       TextDecoder.flush z ⟨none, some buf⟩ = .ok (t, ⟨none, some buf⟩))
    ∧ (TextDecoder.flush z ⟨some d, bopt⟩
        = match z.decDecode d [] true with
          | some r => .ok (r.1, ⟨some r.2, bopt⟩)
          | none => .error "unicode decode error") := by
  refine ⟨rfl, ?_, ?_⟩
  · intro hne henc hdec
    simp only [TextDecoder.flush]
    rw [if_neg (by simpa using hne)]
    simp only [henc, hdec]
  · rw [TextDecoder.flush]

theorem textDecoder_flush_cases_witness :
    TextDecoder.flush codecsDemo (⟨none, some []⟩ : TextDecoder Nat)
        = .ok ("", ⟨none, some []⟩)
    ∧ TextDecoder.flush codecsDemo (⟨none, some [1, 2]⟩ : TextDecoder Nat)
        = .ok ("B", ⟨none, some [1, 2]⟩)
    ∧ TextDecoder.flush codecsDemo (⟨some 5, none⟩ : TextDecoder Nat)
        = .ok ("T", ⟨some 6, none⟩) := by
  have h := textDecoder_flush_cases codecsDemo [1, 2] "ascii" "B" 5 none
  exact ⟨h.1, h.2.1 (by decide) rfl rfl, by rw [h.2.2]; rfl⟩

/-- On results, `TextDecoder.decode` and the state-explicit
`TextDecoder.decodeST` agree: the same text and post-state on success,
the same message on error. -/
theorem TextDecoder.decode_eq_decodeST {D : Type} (z : CodecsModule D)
    (st : TextDecoder D) (data : Bytes) :
    TextDecoder.decode z st data
      = match TextDecoder.decodeST z st data with
        | (.ok t, st2) => .ok (t, st2)
        | (.error e, _) => .error e := by
  obtain ⟨dec, bopt⟩ := st
  cases dec with
  | some d =>
    cases hdd : z.decDecode d data false with
    | some r => simp only [TextDecoder.decode, TextDecoder.decodeST, hdd]
    | none => simp only [TextDecoder.decode, TextDecoder.decodeST, hdd]
  | none =>
    cases bopt with
    | none => rfl
    | some buf =>
      by_cases hlen : (buf ++ data).length ≥ 4096
      · cases hdc : z.detectorClose (buf ++ data) with
        | none =>
          simp only [TextDecoder.decode, TextDecoder.decodeST]
          rw [if_pos hlen, if_pos hlen]
          simp only [hdc]
        | some enc =>
          cases hdd : z.decDecode (z.getincrementaldecoder enc) (buf ++ data)
              false with
          | some r =>
            simp only [TextDecoder.decode, TextDecoder.decodeST]
            rw [if_pos hlen, if_pos hlen]
            simp only [hdc, hdd]
          | none =>
            simp only [TextDecoder.decode, TextDecoder.decodeST]
            rw [if_pos hlen, if_pos hlen]
            simp only [hdc, hdd]
      · simp only [TextDecoder.decode, TextDecoder.decodeST]
        rw [if_neg hlen, if_neg hlen]

/-- On results, `TextDecoder.flush` and the state-explicit
`TextDecoder.flushST` agree. -/
theorem TextDecoder.flush_eq_flushST {D : Type} (z : CodecsModule D)
    (st : TextDecoder D) :
    TextDecoder.flush z st
      = match TextDecoder.flushST z st with
        | (.ok t, st2) => .ok (t, st2)
        | (.error e, _) => .error e := by
  obtain ⟨dec, bopt⟩ := st
  cases dec with
  | some d =>
    cases hdd : z.decDecode d [] true with
    | some r => simp only [TextDecoder.flush, TextDecoder.flushST, hdd]
    | none => simp only [TextDecoder.flush, TextDecoder.flushST, hdd]
  | none =>
    cases bopt with
    | none => rfl
    | some buf =>
      by_cases hz : buf.length = 0
      · simp only [TextDecoder.flush, TextDecoder.flushST]
        rw [if_pos hz, if_pos hz]
      · cases hdc : z.detectorClose buf with
        | none =>
          simp only [TextDecoder.flush, TextDecoder.flushST]
          rw [if_neg hz, if_neg hz]
          simp only [hdc]
        | some enc =>
          cases hbd : z.bytesDecode enc buf with
          | some t =>
            simp only [TextDecoder.flush, TextDecoder.flushST]
            rw [if_neg hz, if_neg hz]
            simp only [hdc, hbd]
          | none =>
            simp only [TextDecoder.flush, TextDecoder.flushST]
            rw [if_neg hz, if_neg hz]
            simp only [hdc, hbd]

/-- C9 counterexample: the claimed invariant fails after a decode call.
Starting from a freshly constructed undeclared-encoding decoder, a
below-threshold call reaches the state with 4095 buffered bytes; the
next call crosses the 4096-byte threshold, detection succeeds, the
committed decoder is assigned, and its one-pass decode of the buffered
prefix raises — the call returns the error with the committed decoder
assigned AND the buffer still present, both components non-null. -/
theorem textDecoder_state_exclusive_counterexample :
    TextDecoder.decodeST codecsRaisingDemo
        (TextDecoder.init codecsRaisingDemo none) (List.replicate 4095 0)
      = (.ok "", ⟨none, some (List.replicate 4095 0)⟩)
    ∧ TextDecoder.exclusiveState
        (⟨none, some (List.replicate 4095 0)⟩ : TextDecoder Nat)
    ∧ (TextDecoder.decodeST codecsRaisingDemo
        ⟨none, some (List.replicate 4095 0)⟩ [0]).1
      = .error "unicode decode error"
    ∧ (TextDecoder.decodeST codecsRaisingDemo
        ⟨none, some (List.replicate 4095 0)⟩ [0]).2
      = ⟨some 7, some (List.replicate 4095 0 ++ [0])⟩
    ∧ ¬ TextDecoder.exclusiveState
        (TextDecoder.decodeST codecsRaisingDemo
          ⟨none, some (List.replicate 4095 0)⟩ [0]).2 := by
  have key0 : ∀ R : Bytes, R.length = 4095 →
      TextDecoder.decodeST codecsRaisingDemo
        (⟨none, some []⟩ : TextDecoder Nat) R = (.ok "", ⟨none, some R⟩) := by
    intro R hR
    simp only [TextDecoder.decodeST]
    rw [if_neg (by rw [List.nil_append, hR]; omega), List.nil_append]
  have key : ∀ R : Bytes, R.length = 4095 →
      TextDecoder.decodeST codecsRaisingDemo
          (⟨none, some R⟩ : TextDecoder Nat) [0]
        = (.error "unicode decode error", ⟨some 7, some (R ++ [0])⟩) := by
    intro R hR
    simp only [TextDecoder.decodeST]
    rw [if_pos (by rw [List.length_append, hR, List.length_singleton])]
    rfl
  have hRlen : (List.replicate 4095 (0 : Nat)).length = 4095 := by
    rw [List.length_replicate]
  refine ⟨key0 _ hRlen, Or.inr ⟨rfl, rfl⟩, ?_, ?_, ?_⟩
  · rw [key _ hRlen]
  · rw [key _ hRlen]
  · rw [key _ hRlen]
    intro hexcl
    rcases hexcl with ⟨hA, hB⟩ | ⟨hA, hB⟩
    · exact Option.noConfusion hB
    · exact Option.noConfusion hA

/-- C9 (amended): the exclusive-state invariant holds after
construction, after every `decode` call that returns successfully, and
after every `flush` call, raising or not; it can fail after a raising
`decode` call — a call that crosses the 4096-byte threshold, commits a
decoder for the detected encoding, and then raises while decoding the
buffered prefix in one pass leaves both the committed decoder and the
buffer non-null. -/
theorem textDecoder_state_exclusive_amended {D : Type} (z : CodecsModule D)
    (encoding : Option String) (st : TextDecoder D) (data buf : Bytes)
    (enc : String) :
    TextDecoder.exclusiveState (TextDecoder.init z encoding)
    ∧ (TextDecoder.exclusiveState st → ∀ t,
        (TextDecoder.decodeST z st data).1 = .ok t →
        TextDecoder.exclusiveState (TextDecoder.decodeST z st data).2)
    ∧ (TextDecoder.exclusiveState st →
        TextDecoder.exclusiveState (TextDecoder.flushST z st).2)
    ∧ ((buf ++ data).length ≥ 4096 →
       z.detectorClose (buf ++ data) = some enc →
       z.decDecode (z.getincrementaldecoder enc) (buf ++ data) false = none →
       (TextDecoder.decodeST z ⟨none, some buf⟩ data).2
           = ⟨some (z.getincrementaldecoder enc), some (buf ++ data)⟩
       ∧ ¬ TextDecoder.exclusiveState
           (TextDecoder.decodeST z ⟨none, some buf⟩ data).2) := by
  refine ⟨?_, ?_, ?_, ?_⟩
  · cases encoding with
    | none =>
      right
      simp [TextDecoder.init, TextDecoder.exclusiveState]
    | some e =>
      left
      simp [TextDecoder.init, TextDecoder.exclusiveState]
  · intro hst t hok
    obtain ⟨dec, bopt⟩ := st
    rcases hst with ⟨h1, h2⟩ | ⟨h1, h2⟩
    · simp only at h2
      subst h2
      obtain ⟨d, rfl⟩ := Option.isSome_iff_exists.mp h1
      cases hdd : z.decDecode d data false with
      | none =>
        simp only [TextDecoder.decodeST, hdd] at hok
        cases hok
      | some r =>
        simp only [TextDecoder.decodeST, hdd]
        left
        exact ⟨rfl, rfl⟩
    · simp only at h1
      subst h1
      obtain ⟨buf2, rfl⟩ := Option.isSome_iff_exists.mp h2
      by_cases hlen : (buf2 ++ data).length ≥ 4096
      · cases hdc : z.detectorClose (buf2 ++ data) with
        | none =>
          simp only [TextDecoder.decodeST] at hok
          rw [if_pos hlen] at hok
          simp only [hdc] at hok
          cases hok
        | some enc2 =>
          cases hdd : z.decDecode (z.getincrementaldecoder enc2)
              (buf2 ++ data) false with
          | none =>
            simp only [TextDecoder.decodeST] at hok
            rw [if_pos hlen] at hok
            simp only [hdc, hdd] at hok
            cases hok
          | some r =>
            simp only [TextDecoder.decodeST]
            rw [if_pos hlen]
            simp only [hdc, hdd]
            left
            exact ⟨rfl, rfl⟩
      · simp only [TextDecoder.decodeST]
        rw [if_neg hlen]
        right
        exact ⟨rfl, rfl⟩
  · intro hst
    obtain ⟨dec, bopt⟩ := st
    rcases hst with ⟨h1, h2⟩ | ⟨h1, h2⟩
    · simp only at h2
      subst h2
      obtain ⟨d, rfl⟩ := Option.isSome_iff_exists.mp h1
      cases hdd : z.decDecode d [] true with
      | none =>
        simp only [TextDecoder.flushST, hdd]
        left
        exact ⟨rfl, rfl⟩
      | some r =>
        simp only [TextDecoder.flushST, hdd]
        left
        exact ⟨rfl, rfl⟩
    · simp only at h1
      subst h1
      obtain ⟨buf2, rfl⟩ := Option.isSome_iff_exists.mp h2
      by_cases hz : buf2.length = 0
      · simp only [TextDecoder.flushST]
        rw [if_pos hz]
        right
        exact ⟨rfl, rfl⟩
      · cases hdc : z.detectorClose buf2 with
        | none =>
          simp only [TextDecoder.flushST]
          rw [if_neg hz]
          simp only [hdc]
          right
          exact ⟨rfl, rfl⟩
        | some enc2 =>
          cases hbd : z.bytesDecode enc2 buf2 with
          | none =>
            simp only [TextDecoder.flushST]
            rw [if_neg hz]
            simp only [hdc, hbd]
            right
            exact ⟨rfl, rfl⟩
          | some s =>
            simp only [TextDecoder.flushST]
            rw [if_neg hz]
            simp only [hdc, hbd]
            right
            exact ⟨rfl, rfl⟩
  · intro hlen hdc hdd
    simp only [TextDecoder.decodeST]
    rw [if_pos hlen]
    simp only [hdc, hdd]
    refine ⟨trivial, ?_⟩
    intro hexcl
    rcases hexcl with ⟨hA, hB⟩ | ⟨hA, hB⟩
    · simp at hB
    · simp at hA

theorem textDecoder_state_exclusive_amended_witness :
    TextDecoder.exclusiveState (TextDecoder.init codecsDemo (some "utf-8"))
    ∧ TextDecoder.exclusiveState
        ((TextDecoder.decodeST codecsDemo
          (⟨none, some []⟩ : TextDecoder Nat) [1]).2)
    ∧ TextDecoder.exclusiveState
        ((TextDecoder.flushST codecsDemo
          (⟨none, some []⟩ : TextDecoder Nat)).2)
    ∧ ¬ TextDecoder.exclusiveState
        ((TextDecoder.decodeST codecsRaisingDemo
          (⟨none, some (List.replicate 4095 0)⟩ : TextDecoder Nat) [0]).2) := by
  have hlen : (List.replicate 4095 (0 : Nat) ++ [0]).length ≥ 4096 := by
    rw [List.length_append, List.length_replicate, List.length_singleton]
  have hwf : TextDecoder.exclusiveState (⟨none, some []⟩ : TextDecoder Nat) :=
    Or.inr ⟨rfl, rfl⟩
  have h := textDecoder_state_exclusive_amended codecsDemo (some "utf-8")
    (⟨none, some []⟩ : TextDecoder Nat) [1] [] "ascii"
  have h2 := textDecoder_state_exclusive_amended codecsRaisingDemo none
    (⟨none, some []⟩ : TextDecoder Nat) [0] (List.replicate 4095 0) "shift-jis"
  exact ⟨h.1, h.2.1 hwf "" rfl, h.2.2.1 hwf,
    (h2.2.2.2 hlen rfl rfl).2⟩

theorem lookup_strip_credentials (headers : Headers) :
    (headers.filter
        (fun kv => !(kv.1 == "authorization" || kv.1 == "cookie"))).lookup
      "authorization" = none := by
  induction headers with
  | nil => rfl
  | cons kv tl ih =>
    obtain ⟨k, v⟩ := kv
    rw [List.filter_cons]
    by_cases ha : k = "authorization"
    · subst ha
      rw [if_neg (by simp)]
      exact ih
    · by_cases hc : k = "cookie"
      · subst hc
        rw [if_neg (by simp)]
        exact ih
      · rw [if_pos (by simp [ha, hc])]
        have hne : ("authorization" == k) = false := by
          rw [beq_eq_false_iff_ne]
          exact fun h => ha h.symm
        rw [List.lookup, hne]
        exact ih

/-- C1: a redirect to a target whose origin (scheme + host + port)
differs from the original request's origin carries no `Authorization`
header, even if one was present; a redirect to a target with the same
origin (e.g. differing only in path) keeps the original headers — the
`Authorization` header included — unchanged. -/
theorem redirect_auth_header_scoping (headers : Headers) (origin target : URL) :
    (sameOrigin origin target = false →
      (redirectHeaders headers origin target).lookup "authorization" = none)
    ∧ (sameOrigin origin target = true →
      redirectHeaders headers origin target = headers) := by
  constructor
  · intro hdiff
    rw [redirectHeaders, if_neg (by simp [hdiff])]
    exact lookup_strip_credentials headers
  · intro hsame
    rw [redirectHeaders, if_pos (by simp [hsame])]

theorem redirect_auth_header_scoping_witness :
    (sameOrigin ⟨"https", "a.example", 443, "/"⟩ ⟨"https", "b.example", 443, "/"⟩
        = false
      ∧ (redirectHeaders [("authorization", "abc")]
          ⟨"https", "a.example", 443, "/"⟩ ⟨"https", "b.example", 443, "/"⟩).lookup
          "authorization" = none)
    ∧ (sameOrigin ⟨"https", "a.example", 443, "/"⟩
          ⟨"https", "a.example", 443, "/other"⟩ = true
      ∧ redirectHeaders [("authorization", "abc")]
          ⟨"https", "a.example", 443, "/"⟩ ⟨"https", "a.example", 443, "/other"⟩
          = [("authorization", "abc")]) := by
  constructor
  · exact ⟨by decide, (redirect_auth_header_scoping [("authorization", "abc")]
      ⟨"https", "a.example", 443, "/"⟩ ⟨"https", "b.example", 443, "/"⟩).1
      (by decide)⟩
  · exact ⟨by decide, (redirect_auth_header_scoping [("authorization", "abc")]
      ⟨"https", "a.example", 443, "/"⟩ ⟨"https", "a.example", 443, "/other"⟩).2
      (by decide)⟩

/-- C2: the method/body rewrite driven by the redirect status code: on
301/302 a POST becomes GET with the body dropped while HEAD and any
other method is unchanged with the body kept; on 303 every method
except HEAD is forced to GET and the body is always dropped; on 307/308
method and body are unchanged; in particular POST + 301 → GET with no
body, POST + 307 → POST with the original body, GET + 303 → GET. -/
theorem redirect_method_body_rewrite (m : String) (b : Option Bytes) :
    (redirectMethod 301 "POST" = "GET" ∧ redirectBody 301 "POST" b = none)
    ∧ (redirectMethod 302 "POST" = "GET" ∧ redirectBody 302 "POST" b = none)
    ∧ (m ≠ "POST" → redirectMethod 301 m = m ∧ redirectBody 301 m b = b
        ∧ redirectMethod 302 m = m ∧ redirectBody 302 m b = b)
    ∧ redirectMethod 303 "HEAD" = "HEAD"
    ∧ (m ≠ "HEAD" → redirectMethod 303 m = "GET")
    ∧ redirectBody 303 m b = none
    ∧ (redirectMethod 307 m = m ∧ redirectBody 307 m b = b)
    ∧ (redirectMethod 308 m = m ∧ redirectBody 308 m b = b)
    ∧ redirectMethod 303 "GET" = "GET" := by
  refine ⟨⟨rfl, by simp [redirectBody, redirectMethod]⟩,
    ⟨rfl, by simp [redirectBody, redirectMethod]⟩, ?_, rfl, ?_,
    by simp [redirectBody], ⟨by simp [redirectMethod], by simp [redirectBody]⟩,
    ⟨by simp [redirectMethod], by simp [redirectBody]⟩, rfl⟩
  · intro hm
    have h301 : redirectMethod 301 m = m := by simp [redirectMethod, hm]
    have h302 : redirectMethod 302 m = m := by simp [redirectMethod, hm]
    refine ⟨h301, ?_, h302, ?_⟩
    · simp [redirectBody, h301]
    · simp [redirectBody, h302]
  · intro hm
    simp [redirectMethod, hm]

theorem redirect_method_body_rewrite_witness :
    (redirectMethod 301 "POST" = "GET" ∧ redirectBody 301 "POST" (some [1]) = none)
    ∧ (redirectMethod 301 "PUT" = "PUT" ∧ redirectBody 301 "PUT" (some [1]) = some [1])
    ∧ redirectMethod 303 "PUT" = "GET"
    ∧ (redirectMethod 307 "POST" = "POST"
        ∧ redirectBody 307 "POST" (some [1]) = some [1])
    ∧ redirectMethod 303 "GET" = "GET" := by
  have h := redirect_method_body_rewrite "PUT" (some [1])
  have h2 := redirect_method_body_rewrite "POST" (some [1])
  exact ⟨h.1, ⟨(h.2.2.1 (by decide)).1, (h.2.2.1 (by decide)).2.1⟩,
    h.2.2.2.2.1 (by decide), h2.2.2.2.2.2.2.1, h.2.2.2.2.2.2.2.2⟩

/-- C3: each redirect increments the counter; a chain with at most
`maxRedirects` redirects succeeds (in particular exactly at the
maximum), a chain with more aborts with `TooManyRedirects`, and the
outcome depends only on the length of the chain — a true cycle
(repeated URLs) behaves exactly like any acyclic chain of the same
length, i.e. no cycle detection by URL equality is performed. -/
theorem redirect_counter_ceiling (maxRedirects n : Nat) (chain chain2 : List URL) :
    (n + chain.length ≤ maxRedirects →
      followRedirects maxRedirects chain n = .ok (n + chain.length))
    ∧ (n ≤ maxRedirects → n + chain.length > maxRedirects →
      followRedirects maxRedirects chain n = .error .tooManyRedirects)
    ∧ (chain.length = chain2.length →
      followRedirects maxRedirects chain n = followRedirects maxRedirects chain2 n) := by
  refine ⟨?_, ?_, ?_⟩
  · induction chain generalizing n with
    | nil => intro _; simp [followRedirects]
    | cons u rest ih =>
      intro hle
      simp only [List.length_cons] at hle
      rw [followRedirects, if_neg (by omega)]
      have h := ih (n + 1) (by omega)
      rw [h]
      simp only [List.length_cons]
      congr 1
      omega
  · induction chain generalizing n with
    | nil =>
      intro hle hgt
      simp only [List.length_nil] at hgt
      omega
    | cons u rest ih =>
      intro hle hgt
      simp only [List.length_cons] at hgt
      by_cases hstep : n + 1 > maxRedirects
      · rw [followRedirects, if_pos hstep]
      · rw [followRedirects, if_neg hstep]
        exact ih (n + 1) (by omega) (by omega)
  · induction chain generalizing n chain2 with
    | nil =>
      intro hlen
      cases chain2 with
      | nil => rfl
      | cons v rest2 => simp at hlen
    | cons u rest ih =>
      intro hlen
      cases chain2 with
      | nil => simp at hlen
      | cons v rest2 =>
        simp only [List.length_cons, Nat.add_right_cancel_iff] at hlen
        rw [followRedirects, followRedirects]
        by_cases hstep : n + 1 > maxRedirects
        · rw [if_pos hstep, if_pos hstep]
        · rw [if_neg hstep, if_neg hstep]
          exact ih (n + 1) rest2 hlen

theorem redirect_counter_ceiling_witness :
    (0 + (List.replicate 20 (⟨"https", "example.org", 443, "/loop"⟩ : URL)).length
        ≤ 20
      ∧ followRedirects 20
          (List.replicate 20 (⟨"https", "example.org", 443, "/loop"⟩ : URL)) 0
          = .ok (0 + (List.replicate 20
              (⟨"https", "example.org", 443, "/loop"⟩ : URL)).length))
    ∧ (0 + (List.replicate 21 (⟨"https", "example.org", 443, "/loop"⟩ : URL)).length
        > 20
      ∧ followRedirects 20
          (List.replicate 21 (⟨"https", "example.org", 443, "/loop"⟩ : URL)) 0
          = .error .tooManyRedirects)
    ∧ followRedirects 20
        [⟨"https", "example.org", 443, "/a"⟩, ⟨"https", "example.org", 443, "/a"⟩] 0
        = followRedirects 20
          [⟨"https", "example.org", 443, "/a"⟩, ⟨"https", "example.org", 443, "/b"⟩]
          0 := by
  have hlen20 : (List.replicate 20
      (⟨"https", "example.org", 443, "/loop"⟩ : URL)).length = 20 := by
    rw [List.length_replicate]
  have hlen21 : (List.replicate 21
      (⟨"https", "example.org", 443, "/loop"⟩ : URL)).length = 21 := by
    rw [List.length_replicate]
  refine ⟨⟨by omega, ?_⟩, ⟨by omega, ?_⟩, ?_⟩
  · exact (redirect_counter_ceiling 20 0
      (List.replicate 20 ⟨"https", "example.org", 443, "/loop"⟩) []).1 (by omega)
  · exact (redirect_counter_ceiling 20 0
      (List.replicate 21 ⟨"https", "example.org", 443, "/loop"⟩) []).2.1
      (by omega) (by omega)
  · exact (redirect_counter_ceiling 20 0
      [⟨"https", "example.org", 443, "/a"⟩, ⟨"https", "example.org", 443, "/a"⟩]
      [⟨"https", "example.org", 443, "/a"⟩, ⟨"https", "example.org", 443, "/b"⟩]).2.2
      rfl

end Httpx
